import Mathlib

/-!
Verification of the stechuhr time-tracking core against its natural-language
specification.

The development shallowly embeds the Rust sources:
* `src/models.rs`        — `WorkStatus`, `WorkEvent`, `WorkEventT`, staff records;
* `src/tabs/statistics/time_eval.rs` — the time-bucket allocator
  (`DurationSMLabel`, `DurationSM`, `WorkDuration`);
* `src/db.rs`            — `staff_member_compute_status`;
* `src/tabs/statistics/event_eval.rs` — the per-member event state machine
  (`EventSM`) and the evaluation driver `evaluate_hours_for_events`.

Timestamps (`chrono::NaiveDateTime`) are modelled as integers counting whole
seconds from an arbitrary midnight-aligned origin, so
`num_seconds_from_midnight` becomes `t % 86400` (Euclidean remainder) and
`b.signed_duration_since(a).num_seconds()` becomes `b - a`.  `chrono::Duration`
values are modelled as integer second counts.  Rust `assert!` failures
(panics) surface as `Option.none` / a dedicated error constructor, and the
`while` loop of the allocator is given explicit fuel, chosen large enough that
exhausting it is provably impossible.
-/

namespace Stechuhr

/-- `const SECS_PER_HOUR: Int = 60 * 60` from `time_eval.rs`. -/
def SECS_PER_HOUR : Int := 60 * 60

/-! ### models.rs -/

/-- `enum WorkStatus { Away, Working }` from `models.rs`. -/
inductive WorkStatus where
  | Away
  | Working
deriving DecidableEq, Repr

namespace WorkStatus

/-- `WorkStatus::from_bool` from `models.rs`. -/
def from_bool (b : Bool) : WorkStatus :=
  if b then .Working else .Away

/-- `WorkStatus::toggle` from `models.rs`. -/
def toggle : WorkStatus → WorkStatus
  | .Away => .Working
  | .Working => .Away

end WorkStatus

/-- `enum WorkEvent` from `models.rs`.  The `i32` member id is modelled as `Int`. -/
inductive WorkEvent where
  | StatusChange (uuid : Int) (name : String) (status : WorkStatus)
  | EventStart
  | EventOver
  | _6am
  | Info (msg : String)
  | Error (msg : String)
deriving DecidableEq, Repr

/-- `struct WorkEventT` from `models.rs`: a logged event with its database id
and creation timestamp. -/
structure WorkEventT where
  id : Int
  created_at : Int
  event : WorkEvent
deriving DecidableEq, Repr

/-- `struct DBStaffMember` from `models.rs` (persisted staff record, no status). -/
structure DBStaffMember where
  uuid : Int
  name : String
  pin : String
  cardid : String
  is_visible : Bool
deriving DecidableEq, Repr

/-- `struct StaffMember` from `models.rs` (staff record plus derived status). -/
structure StaffMember where
  uuid : Int
  name : String
  pin : String
  cardid : String
  status : WorkStatus
  is_visible : Bool
deriving DecidableEq, Repr

/-- `DBStaffMember::with_status` from `models.rs`. -/
def DBStaffMember.with_status (m : DBStaffMember) (status : WorkStatus) : StaffMember :=
  { uuid := m.uuid, name := m.name, pin := m.pin, cardid := m.cardid
    status := status, is_visible := m.is_visible }

/-! ### time_eval.rs : the time-bucket allocator -/

/-- `enum DurationSMLabel` from `time_eval.rs`: the three pay-rate buckets of a
day, 04:00–20:00, 20:00–24:00 and 24:00–04:00. -/
inductive DurationSMLabel where
  | L4_20
  | L20_24
  | L24_4
deriving DecidableEq, Repr

namespace DurationSMLabel

/-- `DurationSMLabel::to_duration_seconds` from `time_eval.rs`. -/
def to_duration_seconds : DurationSMLabel → Int
  | .L4_20 => (20 - 4) * SECS_PER_HOUR
  | .L20_24 => (24 - 20) * SECS_PER_HOUR
  | .L24_4 => (4 - 0) * SECS_PER_HOUR

/-- `DurationSMLabel::to_start_seconds` from `time_eval.rs`. -/
def to_start_seconds : DurationSMLabel → Int
  | .L4_20 => 4 * SECS_PER_HOUR
  | .L20_24 => 20 * SECS_PER_HOUR
  | .L24_4 => 0 * SECS_PER_HOUR

/-- `DurationSMLabel::from_absolute_seconds` from `time_eval.rs`.  The
`assert!(s < 24 * SECS_PER_HOUR)` is modelled by returning `none` (a panic). -/
def from_absolute_seconds (s : Int) : Option DurationSMLabel :=
  if s < 24 * SECS_PER_HOUR then
    some (if s < 4 * SECS_PER_HOUR then .L24_4
          else if s < 20 * SECS_PER_HOUR then .L4_20
          else .L20_24)
  else none

end DurationSMLabel

/-- `struct DurationSM` from `time_eval.rs`.  The `buckets: [Int; 3]` array is
flattened into three fields. -/
structure DurationSM where
  buckets1 : Int
  buckets2 : Int
  buckets3 : Int
  label : DurationSMLabel
  current_seconds : Int
deriving DecidableEq, Repr

/-- `enum StatisticsError` of the statistics module.  Only the
`DurationError` constructor is exercised by the embedded code
(a failed `chrono` duration addition); `AssertStartEnd` additionally models
the panic of the `assert!(start_time < end_time)` in
`WorkDuration::from_start_end_time` so that fallible call chains stay total. -/
inductive StatisticsError where
  | DurationError (a b : Int)
  | AssertStartEnd (s t : Int)
deriving DecidableEq, Repr

namespace DurationSM

/-- `DurationSM::new` from `time_eval.rs`; the `assert!` and the assert inside
`from_absolute_seconds` are modelled by `none`. -/
def new (start_seconds : Int) : Option DurationSM :=
  if start_seconds < 24 * SECS_PER_HOUR then
    match DurationSMLabel.from_absolute_seconds start_seconds with
    | none => none
    | some label =>
      some { buckets1 := 0, buckets2 := 0, buckets3 := 0
             label := label
             current_seconds := start_seconds - label.to_start_seconds }
  else none

/-- `DurationSM::next_step` from `time_eval.rs`. -/
def next_step (sm : DurationSM) : DurationSM :=
  match sm.label with
  | .L4_20 => { sm with label := .L20_24 }
  | .L20_24 => { sm with label := .L24_4 }
  | .L24_4 => { sm with label := .L4_20 }

/-- `DurationSM::get_current_seconds` from `time_eval.rs`. -/
def get_current_seconds (sm : DurationSM) : Int :=
  sm.label.to_duration_seconds - sm.current_seconds

/-- `DurationSM::add_time` from `time_eval.rs`. -/
def add_time (sm : DurationSM) (s : Int) : DurationSM :=
  match sm.label with
  | .L4_20 => { sm with buckets1 := sm.buckets1 + s, current_seconds := 0 }
  | .L20_24 => { sm with buckets2 := sm.buckets2 + s, current_seconds := 0 }
  | .L24_4 => { sm with buckets3 := sm.buckets3 + s, current_seconds := 0 }

end DurationSM

/-- `struct WorkDuration([Duration; 3])` from `time_eval.rs`, the three
per-bucket durations in whole seconds. -/
structure WorkDuration where
  d1 : Int
  d2 : Int
  d3 : Int
deriving DecidableEq, Repr

/-- `DurationSM::to_work_duration` from `time_eval.rs`. -/
def DurationSM.to_work_duration (sm : DurationSM) : WorkDuration :=
  { d1 := sm.buckets1, d2 := sm.buckets2, d3 := sm.buckets3 }

/-- Largest value (in whole seconds) representable by a `chrono::Duration`,
whose bound is `i64::MAX` milliseconds. -/
def chronoMaxSecs : Int := 9223372036854775

/-- Smallest value (in whole seconds) representable by a `chrono::Duration`. -/
def chronoMinSecs : Int := -9223372036854775

/-- `chrono::Duration::checked_add` modelled at whole-second granularity:
`none` when the sum leaves the representable range. -/
def checkedAddSecs (a b : Int) : Option Int :=
  let r := a + b
  if chronoMinSecs ≤ r ∧ r ≤ chronoMaxSecs then some r else none

namespace WorkDuration

/-- `WorkDuration::zero` from `time_eval.rs`. -/
def zero : WorkDuration := { d1 := 0, d2 := 0, d3 := 0 }

/-- `WorkDuration::checked_add` from `time_eval.rs`.  Mirrors the source: the
receiver is destructured into `t1..t3`, the argument into `s1..s3`, and each
component is `s_i.checked_add(t_i)` with a `DurationError` on overflow. -/
def checked_add (self rhs : WorkDuration) : Except StatisticsError WorkDuration :=
  match checkedAddSecs rhs.d1 self.d1 with
  | none => .error (.DurationError rhs.d1 self.d1)
  | some r1 =>
    match checkedAddSecs rhs.d2 self.d2 with
    | none => .error (.DurationError rhs.d2 self.d2)
    | some r2 =>
      match checkedAddSecs rhs.d3 self.d3 with
      | none => .error (.DurationError rhs.d3 self.d3)
      | some r3 => .ok { d1 := r1, d2 := r2, d3 := r3 }

end WorkDuration

/-- The `while seconds_remaining > 0` loop of
`WorkDuration::from_start_end_time`, with explicit fuel.  Exhausted fuel is
`none`; `from_start_end_time` supplies fuel that provably never runs out. -/
def DurationSM.runLoop : Nat → Int → DurationSM → Option DurationSM
  | 0, seconds_remaining, sm =>
      if seconds_remaining > 0 then none else some sm
  | fuel + 1, seconds_remaining, sm =>
      if seconds_remaining > 0 then
        let s := min seconds_remaining sm.get_current_seconds
        DurationSM.runLoop fuel (seconds_remaining - s) ((sm.add_time s).next_step)
      else some sm

/-- `WorkDuration::from_start_end_time` from `time_eval.rs`.  The
`assert!(start_time < end_time)` is modelled by `none`; note the source adds
one extra second (`num_seconds() + 1`, "since we're including the end"). -/
def WorkDuration.from_start_end_time (start_time end_time : Int) : Option WorkDuration :=
  if start_time < end_time then
    match DurationSM.new (start_time % 86400) with
    | none => none
    | some sm =>
      match DurationSM.runLoop (((end_time - start_time) + 1).toNat + 1)
          ((end_time - start_time) + 1) sm with
      | none => none
      | some sm2 => some sm2.to_work_duration
  else none

/-- `WorkDuration::num_minutes` from `time_eval.rs` (`chrono` minute counts;
all durations produced by the allocator are non-negative, where truncating and
Euclidean division agree). -/
def WorkDuration.num_minutes (w : WorkDuration) : Int × Int × Int :=
  (w.d1 / 60, w.d2 / 60, w.d3 / 60)

/-! ### db.rs : status reconstruction -/

/-- `chrono::Timelike::hour()` of a timestamp modelled as seconds from a
midnight-aligned origin. -/
def hourOf (t : Int) : Int := (t % 86400) / 3600

/-- `t.with_hour(6).unwrap()`: replace the hour component by 6, keeping the
date, minute and second components. -/
def withHour6 (t : Int) : Int := t - hourOf t * 3600 + 6 * 3600

/-- The `_6am_boundary` computed at the start of
`db::staff_member_compute_status`: today 06:xx if the current hour is ≥ 6,
otherwise yesterday 06:xx (`current_time - Duration::days(1)`). -/
def boundary6am (current_time : Int) : Int :=
  if 6 ≤ hourOf current_time then withHour6 current_time
  else withHour6 (current_time - 86400)

/-- The `for eventt in events.iter().rev()` scan of
`db::staff_member_compute_status`, taking the events already reversed (most
recent first). -/
def computeStatusScan (uuid : Int) (boundary : Int) : List WorkEventT → WorkStatus
  | [] => .Away
  | e :: rest =>
    if e.created_at < boundary then .Away
    else
      match e.event with
      | .StatusChange id _ status =>
          if id = uuid then status else computeStatusScan uuid boundary rest
      | .EventOver => .Away
      | _ => computeStatusScan uuid boundary rest

/-- `db::staff_member_compute_status` from `db.rs`: derive a member's status
by scanning the event list (ascending by `(timestamp, id)`) backwards from
`current_time`'s 6am boundary. -/
def staff_member_compute_status (staff_member : DBStaffMember) (events : List WorkEventT)
    (current_time : Int) : StaffMember :=
  staff_member.with_status
    (computeStatusScan staff_member.uuid (boundary6am current_time) events.reverse)

/-! ### statistics.rs : report data types

The statistics module of the version under verification (the one
`event_eval.rs` builds on) is not part of the sources; only its use sites and
tests are.  The following four declarations are therefore reconstructed from
those use sites and from the specification's description of the report shape
("one row per member: name + per-bucket minute totals, and a combined anomaly
list"). -/

/-- Modelled from the spec: `enum SoftStatisticsError` — the soft anomalies
`AlreadyWorking`, `AlreadyAway` and `StillWorkingAtBoundary`
(`StaffStillWorking` in the code), each carrying the offending timestamp and
member name, exactly as constructed in `event_eval.rs`. -/
inductive SoftStatisticsError where
  | AlreadyWorking (t : Int) (name : String)
  | AlreadyAway (t : Int) (name : String)
  | StaffStillWorking (t : Int) (name : String)
deriving DecidableEq, Repr

/-- Modelled from the spec: `struct PersonHours` — a staff member together
with the bucketed duration accumulated for them (`PersonHours::new` starts
from a zero duration, as required by the zero-worktime test). -/
structure PersonHours where
  staff_member : StaffMember
  duration : WorkDuration
deriving DecidableEq, Repr

/-- Modelled from the spec: `PersonHours::new`. -/
def PersonHours.new (staff_member : StaffMember) : PersonHours :=
  { staff_member := staff_member, duration := WorkDuration.zero }

/-- Modelled from the spec: `struct PersonHoursCSV` — one report row, the
member name plus the three per-bucket minute totals (fields `minutes_1`,
`minutes_2`, `minutes_3` as read by the tests in `event_eval.rs`). -/
structure PersonHoursCSV where
  name : String
  minutes_1 : Int
  minutes_2 : Int
  minutes_3 : Int
deriving DecidableEq, Repr

/-- Modelled from the spec: `impl From<PersonHours> for PersonHoursCSV`,
converting the accumulated duration into minute totals via
`WorkDuration::num_minutes`. -/
def PersonHoursCSV.from (h : PersonHours) : PersonHoursCSV :=
  let m := h.duration.num_minutes
  { name := h.staff_member.name
    minutes_1 := m.1, minutes_2 := m.2.1, minutes_3 := m.2.2 }

/-- Modelled from the spec: `struct StaffHours` — the generated report, one
row per member plus the combined soft-anomaly list (accessors `hours()` and
`errors()` as used by the tests). -/
structure StaffHours where
  hours_csv : List PersonHoursCSV
  soft_errors : List SoftStatisticsError
deriving DecidableEq, Repr

/-! ### event_eval.rs : the per-member event state machine -/

/-- `enum EventSMLabel { Working(NaiveDateTime), Away }` from `event_eval.rs`. -/
inductive EventSMLabel where
  | Working (start_time : Int)
  | Away
deriving DecidableEq, Repr

/-- `struct EventSM` from `event_eval.rs`. -/
structure EventSM where
  hours_raw : PersonHours
  soft_errors : List SoftStatisticsError
  label : EventSMLabel
deriving DecidableEq, Repr

namespace EventSM

/-- `EventSM::new` from `event_eval.rs`. -/
def new (staff_member : StaffMember) (initial_start_time : Option Int) : EventSM :=
  { hours_raw := PersonHours.new staff_member
    soft_errors := []
    label := match initial_start_time with
             | some start_time => .Working start_time
             | none => .Away }

/-- `EventSM::append_soft_error` from `event_eval.rs`. -/
def append_soft_error (sm : EventSM) (e : SoftStatisticsError) : EventSM :=
  { sm with soft_errors := sm.soft_errors ++ [e] }

/-- `EventSM::add_time` from `event_eval.rs`: allocate `[start_time, end_time]`
into buckets and add the result onto the accumulated duration.  A panic of the
allocator's assert surfaces as `AssertStartEnd`. -/
def add_time (sm : EventSM) (start_time end_time : Int) : Except StatisticsError EventSM :=
  match WorkDuration.from_start_end_time start_time end_time with
  | none => .error (.AssertStartEnd start_time end_time)
  | some additional_work_time =>
    match sm.hours_raw.duration.checked_add additional_work_time with
    | .error e => .error e
    | .ok new_duration =>
        .ok { sm with hours_raw := { sm.hours_raw with duration := new_duration } }

/-- `EventSM::process` from `event_eval.rs`.  Match-arm guards that fail in
the source fall through to the final `_ => Ok(())` arm; here that fallthrough
is written as an explicit `else` returning the unchanged machine. -/
def process (sm : EventSM) (event : WorkEventT) : Except StatisticsError EventSM :=
  match sm.label with
  | .Away =>
    match event.event with
    | .StatusChange uuid _ .Working =>
        if sm.hours_raw.staff_member.uuid = uuid then
          .ok { sm with label := .Working event.created_at }
        else .ok sm
    | .StatusChange uuid _ .Away =>
        if sm.hours_raw.staff_member.uuid = uuid then
          .ok (sm.append_soft_error
            (.AlreadyAway event.created_at sm.hours_raw.staff_member.name))
        else .ok sm
    | _ => .ok sm
  | .Working start_time =>
    match event.event with
    | .StatusChange uuid _ .Away =>
        if sm.hours_raw.staff_member.uuid = uuid then
          match sm.add_time start_time event.created_at with
          | .error e => .error e
          | .ok sm2 => .ok { sm2 with label := .Away }
        else .ok sm
    | .StatusChange uuid _ .Working =>
        if sm.hours_raw.staff_member.uuid = uuid then
          .ok (sm.append_soft_error
            (.AlreadyWorking event.created_at sm.hours_raw.staff_member.name))
        else .ok sm
    | ._6am =>
        match (sm.append_soft_error
            (.StaffStillWorking event.created_at sm.hours_raw.staff_member.name)).add_time
            start_time event.created_at with
        | .error e => .error e
        | .ok sm2 => .ok { sm2 with label := .Away }
    | _ => .ok sm

/-- `EventSM::finish` from `event_eval.rs`: hand back the accumulated hours
and the collected soft errors, nothing more. -/
def finish (sm : EventSM) : PersonHours × List SoftStatisticsError :=
  (sm.hours_raw, sm.soft_errors)

end EventSM

/-- The `for event in events { event_sm.process(event)?; }` loop of
`evaluate_hours_for_staff_member`. -/
def processEvents (sm : EventSM) : List WorkEventT → Except StatisticsError EventSM
  | [] => .ok sm
  | e :: rest =>
    match sm.process e with
    | .error err => .error err
    | .ok sm2 => processEvents sm2 rest

/-- `evaluate_hours_for_staff_member` from `event_eval.rs`. -/
def evaluate_hours_for_staff_member (staff_member : StaffMember)
    (events : List WorkEventT) (start_time : Int) :
    Except StatisticsError (PersonHours × List SoftStatisticsError) :=
  let initial_start_time :=
    if staff_member.status = WorkStatus.Working then some start_time else none
  match processEvents (EventSM.new staff_member initial_start_time) events with
  | .error e => .error e
  | .ok sm => .ok sm.finish

/-- Modelled from the spec: the two-argument
`db::staff_member_compute_status(staff_member, previous_events)` called by
`evaluate_hours_for_events` (this revision of `db.rs` is not among the
sources).  Per spec §4.2: scan the events before the period in reverse
chronological order; the member's own `StatusChange` decides the status, a
`DayBoundary` (`_6am`) event forces `Away`, and an exhausted scan defaults to
`Away`. -/
def specStatusScan (uuid : Int) : List WorkEventT → WorkStatus
  | [] => .Away
  | e :: rest =>
    match e.event with
    | .StatusChange id _ status => if id = uuid then status else specStatusScan uuid rest
    | ._6am => .Away
    | _ => specStatusScan uuid rest

/-- Modelled from the spec: wrapper applying the §4.2 scan to the reversed
prefix of events before the evaluation period, as
`evaluate_hours_for_events` needs it. -/
def staff_member_compute_status_spec (staff_member : DBStaffMember)
    (previous_events : List WorkEventT) : StaffMember :=
  staff_member.with_status (specStatusScan staff_member.uuid previous_events.reverse)

/-- `evaluate_hours_for_events` from `event_eval.rs`: seed each member's
initial status from the events before the period, run the state machine per
member over the period's events, and assemble the report. -/
def evaluate_hours_for_events (raw_staff : List DBStaffMember)
    (events previous_events : List WorkEventT) (start_time : Int) :
    Except StatisticsError StaffHours :=
  let staff := raw_staff.map (fun m => staff_member_compute_status_spec m previous_events)
  match (staff.mapM (fun m => evaluate_hours_for_staff_member m events start_time)) with
  | .error e => .error e
  | .ok results =>
    .ok { hours_csv := results.map (fun r => PersonHoursCSV.from r.1)
          soft_errors := (results.map (fun r => r.2)).flatten }

/-! ### Specification-side helper definitions

These do not come from the source; they give declarative vocabulary for the
theorems: a per-second bucket count against which the allocator's state
machine is verified, the bucket boundaries the specification claims, and a
declarative form of the status scan. -/

/-- Bucket index (0, 1 or 2, matching the three fields of `WorkDuration`) of a
second-of-day under the code's boundaries 04:00 / 20:00 / 24:00. -/
def secBucketIdx (s : Int) : Nat :=
  if s < 4 * SECS_PER_HOUR then 2
  else if s < 20 * SECS_PER_HOUR then 0
  else 1

/-- Bucket index of each `DurationSMLabel` in the `buckets` array. -/
def DurationSMLabel.idx : DurationSMLabel → Nat
  | .L4_20 => 0
  | .L20_24 => 1
  | .L24_4 => 2

/-- Total version of `from_absolute_seconds` for seconds-of-day. -/
def labelOfDay (c : Int) : DurationSMLabel :=
  if c < 4 * SECS_PER_HOUR then .L24_4
  else if c < 20 * SECS_PER_HOUR then .L4_20
  else .L20_24

/-- Number of seconds `k ∈ [0, n)` such that the second-of-day of `c + k`
falls in bucket `j`: the declarative meaning of the allocator. -/
def countSecs (c : Int) (n : Nat) (j : Nat) : Int :=
  ∑ k ∈ Finset.range n, if secBucketIdx ((c + (k : Int)) % 86400) = j then 1 else 0

/-- Sum of the three buckets of a `WorkDuration`. -/
def WorkDuration.sumBuckets (w : WorkDuration) : Int := w.d1 + w.d2 + w.d3

/-- Add one second to bucket `j` of a `WorkDuration`. -/
def WorkDuration.addSecondIn (w : WorkDuration) (j : Nat) : WorkDuration :=
  { d1 := w.d1 + (if j = 0 then 1 else 0)
    d2 := w.d2 + (if j = 1 then 1 else 0)
    d3 := w.d3 + (if j = 2 then 1 else 0) }

/-- Modelled from the spec: bucket index of a second-of-day under the bucket
boundaries the claim states, `[06–22)`, `[22–24)`, `[24–06)`. -/
def specBucketIdx622 (s : Int) : Nat :=
  if s < 6 * SECS_PER_HOUR then 2
  else if s < 22 * SECS_PER_HOUR then 0
  else 1

/-- An event at which the backward scan of `db::staff_member_compute_status`
stops: anything strictly before the 6am boundary, any `StatusChange` of the
queried member, or an `EventOver`. -/
def statusStopper (uuid boundary : Int) (e : WorkEventT) : Bool :=
  decide (e.created_at < boundary) ||
    (match e.event with
     | .StatusChange id _ _ => id == uuid
     | .EventOver => true
     | _ => false)

/-- The status the scan reports at the event it stops on. -/
def statusOutcome (boundary : Int) (e : WorkEventT) : WorkStatus :=
  if e.created_at < boundary then .Away
  else
    match e.event with
    | .StatusChange _ _ status => status
    | _ => .Away

/-! ### Concrete data for witnesses and counterexamples

Timestamps count seconds from midnight of 2000-01-01, the date the repository
tests use; e.g. 18:00 of that day is `64800` and 02:00 of the next day is
`93600`. -/

/-- The staff member of the repository tests. -/
def aaron : DBStaffMember :=
  { uuid := 1, name := "Aaron", pin := "1111", cardid := "1111111111", is_visible := true }

/-- A logged `StatusChange` event for member 1. -/
def scEvent (id t : Int) (status : WorkStatus) : WorkEventT :=
  { id := id, created_at := t, event := .StatusChange 1 "Aaron" status }

/-- A logged day-boundary event. -/
def dayEvent (id t : Int) : WorkEventT :=
  { id := id, created_at := t, event := ._6am }

/-- Spec §8 example scenario 1: working 18:00–20:30, then 23:00–02:00 of the
next day, then 03:00–05:00, all status changes at exactly those timestamps. -/
def scenario1Events : List WorkEventT :=
  [ scEvent 1 64800 .Working, scEvent 2 73800 .Away,
    scEvent 3 82800 .Working, scEvent 4 93600 .Away,
    scEvent 5 97200 .Working, scEvent 6 104400 .Away ]

/-- A state machine mid-run: member 1 working since 18:00, nothing accumulated. -/
def workingSM : EventSM :=
  { hours_raw := PersonHours.new (aaron.with_status .Away)
    soft_errors := []
    label := .Working 64800 }

/-! ### Arithmetic and counting lemmas -/

theorem emod_add_left_day (c k : Int) : (c % 86400 + k) % 86400 = (c + k) % 86400 := by
  rw [Int.add_emod, Int.emod_emod_of_dvd _ dvd_rfl, ← Int.add_emod]

theorem countSecs_zero (c : Int) (j : Nat) : countSecs c 0 j = 0 := by
  simp [countSecs]

theorem countSecs_succ (c : Int) (n : Nat) (j : Nat) :
    countSecs c (n + 1) j =
      countSecs c n j + (if secBucketIdx ((c + (n : Int)) % 86400) = j then 1 else 0) := by
  unfold countSecs
  rw [Finset.sum_range_succ]

theorem countSecs_emod (c : Int) (n : Nat) (j : Nat) :
    countSecs (c % 86400) n j = countSecs c n j := by
  unfold countSecs
  exact Finset.sum_congr rfl fun k _ => by rw [emod_add_left_day]

theorem countSecs_add (c : Int) (a b : Nat) (j : Nat) :
    countSecs c (a + b) j = countSecs c a j + countSecs ((c + (a : Int)) % 86400) b j := by
  induction b with
  | zero => simp [countSecs]
  | succ b ih =>
    rw [show a + (b + 1) = (a + b) + 1 from rfl, countSecs_succ, ih, countSecs_succ]
    have harg : ((c + (a : Int)) % 86400 + (b : Int)) % 86400 = (c + ((a + b : Nat) : Int)) % 86400 := by
      rw [emod_add_left_day]
      push_cast
      ring_nf
    rw [harg, add_assoc]

theorem countSecs_nonneg (c : Int) (n : Nat) (j : Nat) : 0 ≤ countSecs c n j := by
  refine Finset.sum_nonneg fun k _ => ?_
  split <;> norm_num

theorem countSecs_le (c : Int) (n : Nat) (j : Nat) : countSecs c n j ≤ (n : Int) := by
  calc countSecs c n j ≤ ∑ _k ∈ Finset.range n, (1 : Int) := by
        refine Finset.sum_le_sum fun k _ => ?_
        split <;> norm_num
    _ = (n : Int) := by simp

theorem secBucketIdx_cases (s : Int) :
    secBucketIdx s = 0 ∨ secBucketIdx s = 1 ∨ secBucketIdx s = 2 := by
  unfold secBucketIdx
  split_ifs <;> simp

theorem countSecs_total (c : Int) (n : Nat) :
    countSecs c n 0 + countSecs c n 1 + countSecs c n 2 = (n : Int) := by
  induction n with
  | zero => simp [countSecs]
  | succ n ih =>
    rw [countSecs_succ, countSecs_succ, countSecs_succ]
    rcases secBucketIdx_cases ((c + (n : Int)) % 86400) with h | h | h <;>
      simp only [h] <;> push_cast <;> simp <;> omega

/-! ### Label range facts -/

theorem label_start_nonneg (L : DurationSMLabel) : 0 ≤ L.to_start_seconds := by
  cases L <;> norm_num [DurationSMLabel.to_start_seconds, SECS_PER_HOUR]

theorem label_duration_pos (L : DurationSMLabel) : 0 < L.to_duration_seconds := by
  cases L <;> norm_num [DurationSMLabel.to_duration_seconds, SECS_PER_HOUR]

theorem label_end_le_day (L : DurationSMLabel) :
    L.to_start_seconds + L.to_duration_seconds ≤ 86400 := by
  cases L <;> norm_num [DurationSMLabel.to_start_seconds, DurationSMLabel.to_duration_seconds,
    SECS_PER_HOUR]

theorem labelOfDay_start_le (c : Int) (h0 : 0 ≤ c) : (labelOfDay c).to_start_seconds ≤ c := by
  unfold labelOfDay
  split_ifs with ha hb
  · simp only [DurationSMLabel.to_start_seconds, SECS_PER_HOUR]
    omega
  · simp only [SECS_PER_HOUR] at ha
    simp only [DurationSMLabel.to_start_seconds, SECS_PER_HOUR]
    omega
  · simp only [SECS_PER_HOUR] at ha hb
    simp only [DurationSMLabel.to_start_seconds, SECS_PER_HOUR]
    omega

theorem labelOfDay_lt_end (c : Int) (h1 : c < 86400) :
    c < (labelOfDay c).to_start_seconds + (labelOfDay c).to_duration_seconds := by
  unfold labelOfDay
  split_ifs with ha hb
  · simp only [SECS_PER_HOUR] at ha
    simp only [DurationSMLabel.to_start_seconds, DurationSMLabel.to_duration_seconds,
      SECS_PER_HOUR]
    omega
  · simp only [SECS_PER_HOUR] at ha hb
    simp only [DurationSMLabel.to_start_seconds, DurationSMLabel.to_duration_seconds,
      SECS_PER_HOUR]
    omega
  · simp only [SECS_PER_HOUR] at ha hb
    simp only [DurationSMLabel.to_start_seconds, DurationSMLabel.to_duration_seconds,
      SECS_PER_HOUR]
    omega

theorem secBucketIdx_of_range (L : DurationSMLabel) (x : Int)
    (h1 : L.to_start_seconds ≤ x) (h2 : x < L.to_start_seconds + L.to_duration_seconds) :
    secBucketIdx x = L.idx := by
  cases L <;>
    simp only [DurationSMLabel.to_start_seconds, DurationSMLabel.to_duration_seconds,
      SECS_PER_HOUR] at h1 h2 <;>
    simp only [secBucketIdx, DurationSMLabel.idx, SECS_PER_HOUR] <;>
    split_ifs <;> omega

theorem countSecs_const (L : DurationSMLabel) (c : Int) (n : Nat) (j : Nat)
    (h1 : L.to_start_seconds ≤ c)
    (h2 : c + (n : Int) ≤ L.to_start_seconds + L.to_duration_seconds) :
    countSecs c n j = if j = L.idx then (n : Int) else 0 := by
  induction n with
  | zero => simp [countSecs]
  | succ n ih =>
    have hs0 := label_start_nonneg L
    have hend := label_end_le_day L
    have hn0 : (0 : Int) ≤ (n : Int) := Int.ofNat_nonneg n
    have hcast : ((n + 1 : Nat) : Int) = (n : Int) + 1 := by push_cast; ring
    rw [hcast] at h2
    have hn2 : c + (n : Int) ≤ L.to_start_seconds + L.to_duration_seconds := by omega
    have h0 : (0 : Int) ≤ c + (n : Int) := by omega
    have hlt : c + (n : Int) < 86400 := by omega
    have hmod : (c + (n : Int)) % 86400 = c + (n : Int) := Int.emod_eq_of_lt h0 hlt
    have hidx : secBucketIdx ((c + (n : Int)) % 86400) = L.idx := by
      rw [hmod]
      exact secBucketIdx_of_range L _ (by omega) (by omega)
    rw [countSecs_succ, ih hn2, hidx, hcast]
    by_cases hj : j = L.idx
    · rw [if_pos hj, if_pos hj, if_pos (hj ▸ rfl : L.idx = j)]
    · rw [if_neg hj, if_neg hj, if_neg (fun h => hj h.symm)]
      ring

/-! ### The allocator loop invariant -/

/-- Invariant tying a `DurationSM` state to its conceptual cursor position
`c` (a second-of-day): the label is the one containing `c` and
`current_seconds` is the offset of `c` inside that label. -/
def SMinv (c : Int) (sm : DurationSM) : Prop :=
  sm.label = labelOfDay c ∧
  sm.current_seconds = c - sm.label.to_start_seconds ∧
  0 ≤ c ∧ c < 86400

theorem SMinv_get_current (c : Int) (sm : DurationSM) (h : SMinv c sm) :
    sm.get_current_seconds =
      (labelOfDay c).to_start_seconds + (labelOfDay c).to_duration_seconds - c := by
  obtain ⟨hlab, hcur, _, _⟩ := h
  rw [DurationSM.get_current_seconds, hcur, hlab]
  ring

theorem SMinv_get_current_pos (c : Int) (sm : DurationSM) (h : SMinv c sm) :
    0 < sm.get_current_seconds := by
  rw [SMinv_get_current c sm h]
  have := labelOfDay_lt_end c h.2.2.2
  omega

theorem add_next_label (sm : DurationSM) (s : Int) :
    ((sm.add_time s).next_step).label =
      (match sm.label with
       | .L4_20 => DurationSMLabel.L20_24
       | .L20_24 => DurationSMLabel.L24_4
       | .L24_4 => DurationSMLabel.L4_20) := by
  cases h : sm.label <;>
    simp [DurationSM.add_time, DurationSM.next_step, h]

theorem add_next_current (sm : DurationSM) (s : Int) :
    ((sm.add_time s).next_step).current_seconds = 0 := by
  cases h : sm.label <;>
    simp [DurationSM.add_time, DurationSM.next_step, h]

theorem add_next_buckets (sm : DurationSM) (s : Int) :
    ((sm.add_time s).next_step).buckets1 =
        sm.buckets1 + (if 0 = sm.label.idx then s else 0) ∧
    ((sm.add_time s).next_step).buckets2 =
        sm.buckets2 + (if 1 = sm.label.idx then s else 0) ∧
    ((sm.add_time s).next_step).buckets3 =
        sm.buckets3 + (if 2 = sm.label.idx then s else 0) := by
  cases h : sm.label <;>
    simp [DurationSM.add_time, DurationSM.next_step, DurationSMLabel.idx, h]

/-- A full step (consuming exactly the rest of the current label) re-establishes
the invariant at the next label's start. -/
theorem SMinv_next (c : Int) (sm : DurationSM) (h : SMinv c sm) (s : Int) :
    SMinv ((c + sm.get_current_seconds) % 86400) ((sm.add_time s).next_step) := by
  obtain ⟨hlab, hcur, hc0, hc1⟩ := h
  have hget := SMinv_get_current c sm ⟨hlab, hcur, hc0, hc1⟩
  by_cases ha : c < 4 * SECS_PER_HOUR
  · have hl : labelOfDay c = .L24_4 := by
      unfold labelOfDay
      rw [if_pos ha]
    have harg : c + sm.get_current_seconds = 14400 := by
      rw [hget, hl]
      simp only [DurationSMLabel.to_start_seconds, DurationSMLabel.to_duration_seconds,
        SECS_PER_HOUR]
      ring_nf
    rw [harg, show (14400 : Int) % 86400 = 14400 from by decide]
    refine ⟨?_, ?_, by norm_num, by norm_num⟩
    · rw [add_next_label, hlab, hl]
      decide
    · rw [add_next_current, add_next_label, hlab, hl]
      decide
  · by_cases hb : c < 20 * SECS_PER_HOUR
    · have hl : labelOfDay c = .L4_20 := by
        unfold labelOfDay
        rw [if_neg ha, if_pos hb]
      have harg : c + sm.get_current_seconds = 72000 := by
        rw [hget, hl]
        simp only [DurationSMLabel.to_start_seconds, DurationSMLabel.to_duration_seconds,
          SECS_PER_HOUR]
        ring_nf
      rw [harg, show (72000 : Int) % 86400 = 72000 from by decide]
      refine ⟨?_, ?_, by norm_num, by norm_num⟩
      · rw [add_next_label, hlab, hl]
        decide
      · rw [add_next_current, add_next_label, hlab, hl]
        decide
    · have hl : labelOfDay c = .L20_24 := by
        unfold labelOfDay
        rw [if_neg ha, if_neg hb]
      have harg : c + sm.get_current_seconds = 86400 := by
        rw [hget, hl]
        simp only [DurationSMLabel.to_start_seconds, DurationSMLabel.to_duration_seconds,
          SECS_PER_HOUR]
        ring_nf
      rw [harg, show (86400 : Int) % 86400 = 0 from by decide]
      refine ⟨?_, ?_, by norm_num, by norm_num⟩
      · rw [add_next_label, hlab, hl]
        decide
      · rw [add_next_current, add_next_label, hlab, hl]
        decide

theorem runLoop_nonpos (fuel : Nat) (rem : Int) (sm : DurationSM) (h : ¬ rem > 0) :
    DurationSM.runLoop fuel rem sm = some sm := by
  cases fuel <;> simp [DurationSM.runLoop, h]

/-- The allocator loop distributes exactly its remaining seconds, second by
second, over the buckets, starting at the invariant's cursor position. -/
theorem runLoop_spec (fuel : Nat) :
    ∀ (rem : Int) (sm : DurationSM) (c : Int),
      SMinv c sm → rem.toNat < fuel →
      ∃ sm2, DurationSM.runLoop fuel rem sm = some sm2 ∧
        sm2.buckets1 = sm.buckets1 + countSecs c rem.toNat 0 ∧
        sm2.buckets2 = sm.buckets2 + countSecs c rem.toNat 1 ∧
        sm2.buckets3 = sm.buckets3 + countSecs c rem.toNat 2 := by
  induction fuel with
  | zero =>
    intro rem sm c _ hfuel
    omega
  | succ fuel ih =>
    intro rem sm c hinv hfuel
    by_cases hrem : rem > 0
    · obtain ⟨hlab, hcurq, hc0, hc1⟩ := hinv
      have hcur := SMinv_get_current c sm ⟨hlab, hcurq, hc0, hc1⟩
      have hcurpos := SMinv_get_current_pos c sm ⟨hlab, hcurq, hc0, hc1⟩
      have hstart := labelOfDay_start_le c hc0
      have hcastr : ((rem.toNat : Int)) = rem := Int.toNat_of_nonneg (le_of_lt hrem)
      by_cases hc : rem ≤ sm.get_current_seconds
      · have hs : min rem sm.get_current_seconds = rem := min_eq_left hc
        have hconst : ∀ j : Nat, countSecs c rem.toNat j =
            if j = (labelOfDay c).idx then (rem.toNat : Int) else 0 := by
          intro j
          refine countSecs_const (labelOfDay c) c rem.toNat j hstart ?_
          rw [hcastr]
          omega
        obtain ⟨hb1, hb2, hb3⟩ := add_next_buckets sm rem
        refine ⟨(sm.add_time rem).next_step, ?_, ?_, ?_, ?_⟩
        · simp only [DurationSM.runLoop, if_pos hrem, hs]
          exact runLoop_nonpos fuel (rem - rem) _ (by omega)
        · rw [hb1, hconst 0, hlab, hcastr]
        · rw [hb2, hconst 1, hlab, hcastr]
        · rw [hb3, hconst 2, hlab, hcastr]
      · have hcurle : sm.get_current_seconds ≤ rem := le_of_not_le hc
        have hs : min rem sm.get_current_seconds = sm.get_current_seconds :=
          min_eq_right hcurle
        have hcastc : (((sm.get_current_seconds).toNat : Int)) = sm.get_current_seconds :=
          Int.toNat_of_nonneg (le_of_lt hcurpos)
        have hinv2 := SMinv_next c sm ⟨hlab, hcurq, hc0, hc1⟩ sm.get_current_seconds
        have hfuel2 : (rem - sm.get_current_seconds).toNat < fuel := by omega
        obtain ⟨sm2, hrun, hb1, hb2, hb3⟩ :=
          ih (rem - sm.get_current_seconds) ((sm.add_time sm.get_current_seconds).next_step)
            ((c + sm.get_current_seconds) % 86400) hinv2 hfuel2
        have hsplit : rem.toNat = (sm.get_current_seconds).toNat +
            (rem - sm.get_current_seconds).toNat := by omega
        have hconst : ∀ j : Nat, countSecs c ((sm.get_current_seconds).toNat) j =
            if j = (labelOfDay c).idx then ((sm.get_current_seconds).toNat : Int) else 0 := by
          intro j
          refine countSecs_const (labelOfDay c) c _ j hstart ?_
          rw [hcastc]
          omega
        have hcount : ∀ j : Nat, countSecs c rem.toNat j =
            (if j = (labelOfDay c).idx then sm.get_current_seconds else 0) +
              countSecs ((c + sm.get_current_seconds) % 86400)
                ((rem - sm.get_current_seconds).toNat) j := by
          intro j
          rw [hsplit, countSecs_add, hconst j, hcastc]
        obtain ⟨ha1, ha2, ha3⟩ := add_next_buckets sm sm.get_current_seconds
        refine ⟨sm2, ?_, ?_, ?_, ?_⟩
        · simp only [DurationSM.runLoop, if_pos hrem, hs]
          exact hrun
        · rw [hb1, ha1, hcount 0, hlab]
          ring
        · rw [hb2, ha2, hcount 1, hlab]
          ring
        · rw [hb3, ha3, hcount 2, hlab]
          ring
    · have hz : rem.toNat = 0 := by omega
      refine ⟨sm, runLoop_nonpos _ rem sm hrem, ?_, ?_, ?_⟩ <;>
        rw [hz, countSecs_zero] <;> ring

/-- `from_start_end_time` computes exactly the per-second bucket counts of the
closed interval `[start_time, end_time]` (note: `end_time - start_time + 1`
seconds, since the source includes the end second). -/
theorem from_start_end_time_eq_count (start_time end_time : Int)
    (h : start_time < end_time) :
    WorkDuration.from_start_end_time start_time end_time =
      some { d1 := countSecs start_time ((end_time - start_time + 1).toNat) 0
             d2 := countSecs start_time ((end_time - start_time + 1).toNat) 1
             d3 := countSecs start_time ((end_time - start_time + 1).toNat) 2 } := by
  have hc0 : 0 ≤ start_time % 86400 := Int.emod_nonneg start_time (by norm_num)
  have hc1 : start_time % 86400 < 86400 := Int.emod_lt_of_pos start_time (by norm_num)
  have hlab : DurationSMLabel.from_absolute_seconds (start_time % 86400) =
      some (labelOfDay (start_time % 86400)) := by
    unfold DurationSMLabel.from_absolute_seconds labelOfDay
    rw [if_pos]
    simp only [SECS_PER_HOUR]
    omega
  have hnew : DurationSM.new (start_time % 86400) =
      some { buckets1 := 0, buckets2 := 0, buckets3 := 0
             label := labelOfDay (start_time % 86400)
             current_seconds :=
               start_time % 86400 - (labelOfDay (start_time % 86400)).to_start_seconds } := by
    unfold DurationSM.new
    rw [if_pos, hlab]
    simp only [SECS_PER_HOUR]
    omega
  have hinv : SMinv (start_time % 86400)
      { buckets1 := 0, buckets2 := 0, buckets3 := 0
        label := labelOfDay (start_time % 86400)
        current_seconds :=
          start_time % 86400 - (labelOfDay (start_time % 86400)).to_start_seconds } :=
    ⟨rfl, rfl, hc0, hc1⟩
  have hrem : (0 : Int) < end_time - start_time + 1 := by omega
  obtain ⟨sm2, hrun, hb1, hb2, hb3⟩ :=
    runLoop_spec ((end_time - start_time + 1).toNat + 1) (end_time - start_time + 1) _
      (start_time % 86400) hinv (by omega)
  unfold WorkDuration.from_start_end_time
  rw [if_pos h]
  simp only [hnew, hrun]
  unfold DurationSM.to_work_duration
  rw [hb1, hb2, hb3]
  simp only [zero_add]
  rw [countSecs_emod, countSecs_emod, countSecs_emod]

theorem checkedAddSecs_of_nonneg (a b : Int) (ha : 0 ≤ a) (hb : 0 ≤ b)
    (hab : a + b ≤ chronoMaxSecs) : checkedAddSecs a b = some (a + b) := by
  unfold checkedAddSecs
  rw [if_pos]
  refine ⟨?_, hab⟩
  unfold chronoMinSecs
  omega

/-! ### Claim theorems -/

/-- Claim C9 (confirmed): for `start < end` the allocator's bucket walk
terminates within its fuel and no internal assertion fires (the result is
`some _`); for `start ≥ end` the precondition assert is the only failure. -/
theorem C9_allocator_totality (start_time end_time : Int) :
    (WorkDuration.from_start_end_time start_time end_time).isSome ↔
      start_time < end_time := by
  constructor
  · intro hs
    by_contra hlt
    unfold WorkDuration.from_start_end_time at hs
    rw [if_neg hlt] at hs
    simp at hs
  · intro hlt
    rw [from_start_end_time_eq_count _ _ hlt]
    rfl

/-- Claim C1 (corrected): for `start < end` the allocator succeeds and the
three buckets sum to `end - start + 1` seconds — one more than the claim's
`end - start`, because the source adds one second to include the end. -/
theorem C1_allocator_conservation (start_time end_time : Int)
    (h : start_time < end_time) :
    ∃ w, WorkDuration.from_start_end_time start_time end_time = some w ∧
      w.sumBuckets = (end_time - start_time) + 1 := by
  refine ⟨_, from_start_end_time_eq_count _ _ h, ?_⟩
  unfold WorkDuration.sumBuckets
  rw [countSecs_total]
  exact Int.toNat_of_nonneg (by omega)

/-- Claim C1, witness: the conservation theorem applied to the one-minute
interval `[0, 60]`. -/
theorem C1_allocator_conservation_witness :
    ∃ w, WorkDuration.from_start_end_time 0 60 = some w ∧
      w.sumBuckets = (60 - 0) + 1 :=
  C1_allocator_conservation 0 60 (by norm_num)

/-- Claim C1, counterexample to the claim as stated: allocating the
one-minute interval `[0, 60]` yields 61 bucketed seconds, not `end - start
= 60`. -/
theorem C1_counterexample :
    WorkDuration.from_start_end_time 0 60 = some { d1 := 0, d2 := 0, d3 := 61 } ∧
    ({ d1 := 0, d2 := 0, d3 := 61 } : WorkDuration).sumBuckets ≠ 60 - 0 := by
  exact ⟨rfl, by decide⟩

/-- Claim C2 (corrected): splitting `[start, end]` at `mid` double-counts the
second at `mid`; the bucket-wise `checked_add` of the two parts equals the
whole plus one extra second in the bucket containing `mid`'s time of day.
The bound keeps the `chrono` duration addition below its overflow check. -/
theorem C2_allocator_additivity (s m t : Int) (h1 : s < m) (h2 : m < t)
    (hbound : t - s + 2 ≤ chronoMaxSecs) :
    ∃ w1 w2 w, WorkDuration.from_start_end_time s m = some w1 ∧
      WorkDuration.from_start_end_time m t = some w2 ∧
      WorkDuration.from_start_end_time s t = some w ∧
      w1.checked_add w2 =
        .ok (w.addSecondIn (secBucketIdx (m % 86400))) := by
  refine ⟨_, _, _, from_start_end_time_eq_count _ _ h1,
    from_start_end_time_eq_count _ _ h2,
    from_start_end_time_eq_count _ _ (lt_trans h1 h2), ?_⟩
  have hn1' : (((m - s).toNat : Int)) = m - s := Int.toNat_of_nonneg (by omega)
  have hn1 : (m - s + 1).toNat = (m - s).toNat + 1 := by omega
  have hN : (t - s + 1).toNat = (m - s).toNat + (t - m + 1).toNat := by omega
  have hshift : (s + ((m - s).toNat : Int)) % 86400 = m % 86400 := by
    rw [hn1']
    ring_nf
  have key : ∀ j : Nat, countSecs s ((m - s + 1).toNat) j + countSecs m ((t - m + 1).toNat) j
      = countSecs s ((t - s + 1).toNat) j +
        (if secBucketIdx (m % 86400) = j then 1 else 0) := by
    intro j
    rw [hn1, hN, countSecs_succ, countSecs_add, hshift, countSecs_emod]
    ring
  have hb : ∀ j : Nat, countSecs m ((t - m + 1).toNat) j + countSecs s ((m - s + 1).toNat) j
      ≤ chronoMaxSecs := by
    intro j
    have hle1 := countSecs_le s ((m - s + 1).toNat) j
    have hle2 := countSecs_le m ((t - m + 1).toNat) j
    have hc1 : (((m - s + 1).toNat : Int)) = m - s + 1 := Int.toNat_of_nonneg (by omega)
    have hc2 : (((t - m + 1).toNat : Int)) = t - m + 1 := Int.toNat_of_nonneg (by omega)
    rw [hc1] at hle1
    rw [hc2] at hle2
    omega
  have e1 := checkedAddSecs_of_nonneg (countSecs m ((t - m + 1).toNat) 0)
    (countSecs s ((m - s + 1).toNat) 0) (countSecs_nonneg _ _ _) (countSecs_nonneg _ _ _) (hb 0)
  have e2 := checkedAddSecs_of_nonneg (countSecs m ((t - m + 1).toNat) 1)
    (countSecs s ((m - s + 1).toNat) 1) (countSecs_nonneg _ _ _) (countSecs_nonneg _ _ _) (hb 1)
  have e3 := checkedAddSecs_of_nonneg (countSecs m ((t - m + 1).toNat) 2)
    (countSecs s ((m - s + 1).toNat) 2) (countSecs_nonneg _ _ _) (countSecs_nonneg _ _ _) (hb 2)
  unfold WorkDuration.checked_add
  simp only [e1, e2, e3]
  unfold WorkDuration.addSecondIn
  have k0 := key 0
  have k1 := key 1
  have k2 := key 2
  refine congrArg Except.ok ?_
  simp only [WorkDuration.mk.injEq]
  refine ⟨?_, ?_, ?_⟩ <;> omega

/-- Claim C2, witness: the amended additivity theorem applied to
`s = 0, mid = 10, t = 20`. -/
theorem C2_allocator_additivity_witness :
    ∃ w1 w2 w, WorkDuration.from_start_end_time 0 10 = some w1 ∧
      WorkDuration.from_start_end_time 10 20 = some w2 ∧
      WorkDuration.from_start_end_time 0 20 = some w ∧
      w1.checked_add w2 =
        .ok (w.addSecondIn (secBucketIdx (10 % 86400))) :=
  C2_allocator_additivity 0 10 20 (by norm_num) (by norm_num) (by decide)

/-- Claim C2, counterexample to the claim as stated: splitting `[0, 20]` at
`10` gives parts of 11 seconds each, whose bucket-wise sum (22 seconds) is
not the allocation of the whole interval (21 seconds). -/
theorem C2_counterexample :
    WorkDuration.from_start_end_time 0 10 = some { d1 := 0, d2 := 0, d3 := 11 } ∧
    WorkDuration.from_start_end_time 10 20 = some { d1 := 0, d2 := 0, d3 := 11 } ∧
    WorkDuration.from_start_end_time 0 20 = some { d1 := 0, d2 := 0, d3 := 21 } ∧
    WorkDuration.checked_add { d1 := 0, d2 := 0, d3 := 11 } { d1 := 0, d2 := 0, d3 := 11 } =
      Except.ok { d1 := 0, d2 := 0, d3 := 22 } ∧
    ({ d1 := 0, d2 := 0, d3 := 22 } : WorkDuration) ≠ { d1 := 0, d2 := 0, d3 := 21 } := by
  exact ⟨rfl, rfl, rfl, rfl, by decide⟩

/-- The recursive backward scan of `db.rs` equals a `find?`-based declarative
description: the scan stops at the first event (in reverse order) that is
older than the boundary, a `StatusChange` of the member, or an `EventOver`,
and reports `Away`, the changed-to status, or `Away` respectively. -/
theorem computeStatusScan_eq_find (uuid boundary : Int) (l : List WorkEventT) :
    computeStatusScan uuid boundary l =
      (match l.find? (statusStopper uuid boundary) with
       | none => WorkStatus.Away
       | some e => statusOutcome boundary e) := by
  induction l with
  | nil => rfl
  | cons e rest ih =>
    by_cases hb : e.created_at < boundary
    · have hstop : statusStopper uuid boundary e = true := by
        unfold statusStopper
        simp [hb]
      rw [List.find?_cons_of_pos _ hstop]
      simp [computeStatusScan, statusOutcome, hb]
    · cases hev : e.event with
      | StatusChange id nm st =>
        by_cases hid : id = uuid
        · have hstop : statusStopper uuid boundary e = true := by
            unfold statusStopper
            simp [hb, hev, hid]
          rw [List.find?_cons_of_pos _ hstop]
          simp [computeStatusScan, statusOutcome, hb, hev, hid]
        · have hstop : ¬ statusStopper uuid boundary e = true := by
            unfold statusStopper
            simp [hb, hev, hid]
          rw [List.find?_cons_of_neg _ hstop]
          simpa [computeStatusScan, hb, hev, hid] using ih
      | EventOver =>
        have hstop : statusStopper uuid boundary e = true := by
          unfold statusStopper
          simp [hb, hev]
        rw [List.find?_cons_of_pos _ hstop]
        simp [computeStatusScan, statusOutcome, hb, hev]
      | EventStart =>
        have hstop : ¬ statusStopper uuid boundary e = true := by
          unfold statusStopper
          simp [hb, hev]
        rw [List.find?_cons_of_neg _ hstop]
        simpa [computeStatusScan, hb, hev] using ih
      | _6am =>
        have hstop : ¬ statusStopper uuid boundary e = true := by
          unfold statusStopper
          simp [hb, hev]
        rw [List.find?_cons_of_neg _ hstop]
        simpa [computeStatusScan, hb, hev] using ih
      | Info msg =>
        have hstop : ¬ statusStopper uuid boundary e = true := by
          unfold statusStopper
          simp [hb, hev]
        rw [List.find?_cons_of_neg _ hstop]
        simpa [computeStatusScan, hb, hev] using ih
      | Error msg =>
        have hstop : ¬ statusStopper uuid boundary e = true := by
          unfold statusStopper
          simp [hb, hev]
        rw [List.find?_cons_of_neg _ hstop]
        simpa [computeStatusScan, hb, hev] using ih

/-- Claim C3 (corrected): `db::staff_member_compute_status` scans backwards
and stops at the first event older than the computed 6am cutoff (reporting
`Away`), at the member's own most recent `StatusChange` (reporting its
status), or at an `EventOver` (reporting `Away`); day-boundary `_6am` events
themselves are skipped, not a stopping condition, and an exhausted scan
reports `Away`. -/
theorem C3_status_reconstruction (staff_member : DBStaffMember)
    (events : List WorkEventT) (current_time : Int) :
    staff_member_compute_status staff_member events current_time =
      staff_member.with_status
        (match events.reverse.find?
            (statusStopper staff_member.uuid (boundary6am current_time)) with
         | none => WorkStatus.Away
         | some e => statusOutcome (boundary6am current_time) e) := by
  unfold staff_member_compute_status
  rw [computeStatusScan_eq_find]

/-- Claim C3, counterexample to the claim as stated: a day-boundary `_6am`
event that is the most recent event does not force `Away` — the scan skips it
and still finds the older `StatusChange → Working` (member working since
07:00, `_6am` event at 08:00, queried at 10:00). -/
theorem C3_counterexample :
    (staff_member_compute_status aaron
        [scEvent 1 25200 .Working, dayEvent 2 28800] 36000).status = .Working ∧
    WorkStatus.Working ≠ WorkStatus.Away := by
  exact ⟨rfl, by decide⟩

/-- Claim C4 (corrected): the anomaly and the crediting of `[t, boundary]`
happen when a `_6am` event is processed while `Working(t)` — `finish` itself
reports and credits nothing, whatever state the machine ends in. -/
theorem C4_boundary_credit (sm : EventSM) (t e id : Int)
    (hlab : sm.label = .Working t)
    (w : WorkDuration) (hw : WorkDuration.from_start_end_time t e = some w)
    (d : WorkDuration) (hd : sm.hours_raw.duration.checked_add w = .ok d) :
    sm.process { id := id, created_at := e, event := ._6am } =
      .ok { hours_raw := { staff_member := sm.hours_raw.staff_member, duration := d }
            soft_errors := sm.soft_errors ++
              [.StaffStillWorking e sm.hours_raw.staff_member.name]
            label := .Away } ∧
    sm.finish = (sm.hours_raw, sm.soft_errors) := by
  refine ⟨?_, rfl⟩
  simp [EventSM.process, hlab, EventSM.add_time, EventSM.append_soft_error, hw, hd]

/-- Claim C4, witness: the boundary-credit theorem applied to a machine
working since 18:00 processing a `_6am` event at 20:00. -/
theorem C4_boundary_credit_witness :
    EventSM.process workingSM { id := 7, created_at := 72000, event := ._6am } =
      .ok { hours_raw := { staff_member := workingSM.hours_raw.staff_member
                           duration := { d1 := 7200, d2 := 1, d3 := 0 } }
            soft_errors := workingSM.soft_errors ++
              [.StaffStillWorking 72000 workingSM.hours_raw.staff_member.name]
            label := .Away } ∧
    workingSM.finish = (workingSM.hours_raw, workingSM.soft_errors) :=
  C4_boundary_credit workingSM 64800 72000 7 rfl { d1 := 7200, d2 := 1, d3 := 0 } rfl
    { d1 := 7200, d2 := 1, d3 := 0 } rfl

/-- Claim C4, counterexample to the claim as stated: a member who goes
Working inside the period and is never set back leaves the processor in
`Working` at the end, yet the report credits zero minutes and lists no
`StillWorkingAtBoundary` anomaly — `finish` does not handle the terminal
`Working` state. -/
theorem C4_counterexample :
    evaluate_hours_for_events [aaron] [scEvent 1 100000 .Working] [] 21600 =
      .ok { hours_csv := [{ name := "Aaron", minutes_1 := 0, minutes_2 := 0, minutes_3 := 0 }]
            soft_errors := [] } := by
  rfl

/-- Claim C5 (corrected): in every state, an `EventOver` event is ignored
completely — no anomaly is recorded, the state and the accumulated duration
are unchanged, and no error is raised. -/
theorem C5_eventover_ignored (sm : EventSM) (id t : Int) :
    sm.process { id := id, created_at := t, event := .EventOver } = .ok sm := by
  cases h : sm.label <;> simp [EventSM.process, h]

/-- Claim C5, counterexample to the claim as stated: a machine in
`Working(18:00)` processes an `EventOver` and records no anomaly at all (the
claim requires a legacy "closed while working" anomaly). -/
theorem C5_counterexample :
    EventSM.process workingSM { id := 7, created_at := 72000, event := .EventOver } =
      .ok workingSM ∧
    workingSM.label = .Working 64800 ∧
    workingSM.soft_errors = [] := by
  exact ⟨rfl, rfl, rfl⟩

/-- Claim C6 (confirmed): two consecutive `StatusChange → Working` events for
the same member with no intervening `Away`, followed by an `Away`, produce
exactly one `AlreadyWorking` anomaly (at the second event's timestamp), no
fatal error, and a duration spanning from the *first* Working timestamp. -/
theorem C6_duplicate_working (member : StaffMember) (t1 t2 t3 i1 i2 i3 : Int)
    (n1 n2 n3 : String) (h12 : t1 < t2) (h23 : t2 < t3)
    (hbound : t3 - t1 + 1 ≤ chronoMaxSecs) :
    ∃ w, WorkDuration.from_start_end_time t1 t3 = some w ∧
      processEvents (EventSM.new member none)
        [ { id := i1, created_at := t1, event := .StatusChange member.uuid n1 .Working },
          { id := i2, created_at := t2, event := .StatusChange member.uuid n2 .Working },
          { id := i3, created_at := t3, event := .StatusChange member.uuid n3 .Away } ] =
        .ok { hours_raw := { staff_member := member, duration := w }
              soft_errors := [.AlreadyWorking t2 member.name]
              label := .Away } := by
  have h13 : t1 < t3 := lt_trans h12 h23
  refine ⟨_, from_start_end_time_eq_count _ _ h13, ?_⟩
  have hc : (((t3 - t1 + 1).toNat : Int)) = t3 - t1 + 1 := Int.toNat_of_nonneg (by omega)
  have hadd : ∀ j : Nat, checkedAddSecs (countSecs t1 ((t3 - t1 + 1).toNat) j) 0 =
      some (countSecs t1 ((t3 - t1 + 1).toNat) j + 0) := by
    intro j
    refine checkedAddSecs_of_nonneg _ _ (countSecs_nonneg _ _ _) le_rfl ?_
    have := countSecs_le t1 ((t3 - t1 + 1).toNat) j
    omega
  simp [processEvents, EventSM.process, EventSM.new, PersonHours.new,
    EventSM.append_soft_error, EventSM.add_time, from_start_end_time_eq_count _ _ h13,
    WorkDuration.checked_add, WorkDuration.zero, hadd]

/-- Claim C6, witness: the duplicate-Working theorem applied to the
repository's own test scenario (Working 05:00, Working 05:30, Away 06:00 on
day 2). -/
theorem C6_duplicate_working_witness :
    ∃ w, WorkDuration.from_start_end_time 104400 108000 = some w ∧
      processEvents (EventSM.new (aaron.with_status .Away) none)
        [ { id := 1, created_at := 104400,
            event := .StatusChange (aaron.with_status .Away).uuid "Aaron" .Working },
          { id := 2, created_at := 106200,
            event := .StatusChange (aaron.with_status .Away).uuid "Aaron" .Working },
          { id := 3, created_at := 108000,
            event := .StatusChange (aaron.with_status .Away).uuid "Aaron" .Away } ] =
        .ok { hours_raw := { staff_member := aaron.with_status .Away, duration := w }
              soft_errors := [.AlreadyWorking 106200 (aaron.with_status .Away).name]
              label := .Away } :=
  C6_duplicate_working (aaron.with_status .Away) 104400 106200 108000 1 2 3
    "Aaron" "Aaron" "Aaron" (by norm_num) (by norm_num) (by decide)

/-- Claim C7 (corrected): spec example scenario 1 — work 18:00–20:30,
23:00–02:00 (next day), 03:00–05:00 — reports bucket minutes
`[180, 90, 180]`, but for the code's buckets `[04–20)`, `[20–24)`,
`[24–04)`, not the claimed `[06–22)`, `[22–24)`, `[24–06)`. -/
theorem C7_bucket_example :
    evaluate_hours_for_events [aaron] scenario1Events [] 21600 =
      .ok { hours_csv :=
              [{ name := "Aaron", minutes_1 := 180, minutes_2 := 90, minutes_3 := 180 }]
            soft_errors := [] } := by
  rfl

/-- Claim C7, counterexample to the stated bucket boundaries: one hour of
work 04:30–05:30 is credited to bucket 1 by the code, although under the
claimed layout `[24–06)` every second of that hour belongs to bucket 3. -/
theorem C7_counterexample :
    evaluate_hours_for_events [aaron]
        [scEvent 1 16200 .Working, scEvent 2 19800 .Away] [] 0 =
      .ok { hours_csv :=
              [{ name := "Aaron", minutes_1 := 60, minutes_2 := 0, minutes_3 := 0 }]
            soft_errors := [] } ∧
    specBucketIdx622 16200 = 2 ∧ specBucketIdx622 19799 = 2 := by
  exact ⟨rfl, by decide, by decide⟩

/-- Claim C8 (confirmed): `evaluate_hours_for_events` is a pure function of
its four arguments, so evaluating twice on identical inputs yields identical
reports. -/
theorem C8_idempotent_evaluation (raw_staff : List DBStaffMember)
    (events previous_events : List WorkEventT) (start_time : Int) :
    evaluate_hours_for_events raw_staff events previous_events start_time =
      evaluate_hours_for_events raw_staff events previous_events start_time := rfl

/-- Claim C10 (confirmed): `WorkStatus::toggle` is an involution with no
fixed point: `Away ↦ Working ↦ Away`. -/
theorem C10_toggle_involution (s : WorkStatus) :
    s.toggle.toggle = s ∧ s.toggle ≠ s ∧
    WorkStatus.Away.toggle = .Working ∧ WorkStatus.Working.toggle = .Away := by
  cases s <;> exact ⟨rfl, by decide, rfl, rfl⟩

end Stechuhr
